import Mathlib

/-!
Verification development for the core value algebra of a FHIRPath evaluation
engine (fhirpath.js TypeScript port).  The definitions below are shallow
embeddings of the functions in `src/`:

* `src/numbers.ts`   — decimal rounding and precision-limited comparison;
* `src/deep-equal.ts`— structural equality / equivalence over values;
* `src/types/core.ts` (hash-object part) — canonicalized hashing;
* `src/logic.ts`     — three-valued boolean operators;
* `src/equality.ts`  — the `=` / `!=` operators;
* `src/filtering.ts` — `distinct`, `repeat`;
* `src/misc.ts`      — `iif`, `toBoolean`, `toQuantity`;
* `src/math.ts`      — `div`, `intdiv`, `mod`.

Modelling conventions:

* JS `number` values are modelled as exact rationals (`ℚ`).  FHIRPath's
  `Decimal` is a fixed-precision decimal type; every JS double is a dyadic
  rational, so `ℚ` is a faithful idealization.  `NaN`/`Infinity` never arise
  as FHIRPath decimal values and are excluded from the domain; the one place
  a `NaN` *result* can be produced (`%` with a zero divisor) is represented
  explicitly by a dedicated result constructor.
* JS `bigint` is modelled as `ℤ`.
* JS strings are modelled as `List Char` (`String.data`); `toUpperCase` /
  `toLowerCase` use the locale-independent ASCII mapping of `Char.toUpper` /
  `Char.toLower`, which agrees with JS on the ASCII range used here.
* Fallible code returns `Except String _` (a thrown JS error carries its
  message) or `Option _` (`none` models JS `undefined`).
-/

namespace FPJS

/-! ### `src/numbers.ts` -/

/-- `PRECISION_STEP`: the smallest representable number in FHIRPath (`1e-8`). -/
def PRECISION_STEP : ℚ := 1 / 100000000

/-- JS `Math.round`: rounds half toward positive infinity. -/
def jsRound (q : ℚ) : ℤ := ⌊q + 1 / 2⌋

/-- `roundToMaxPrecision(x)`: `Math.round(x / PRECISION_STEP) * PRECISION_STEP`. -/
def roundToMaxPrecision (x : ℚ) : ℚ := (jsRound (x / PRECISION_STEP) : ℚ) * PRECISION_STEP

/-- Number of times `p` divides `n` (`0` when `p ≤ 1` or `n = 0`). -/
def countFactor (p : ℕ) : ℕ → ℕ
  | n =>
    if h : 1 < p ∧ n ≠ 0 ∧ n % p = 0 then countFactor p (n / p) + 1 else 0
  termination_by n => n
  decreasing_by exact Nat.div_lt_self (Nat.pos_of_ne_zero h.2.1) h.1

/-- `decimalPlaces(x)`: the number of digits after the decimal point in the
canonical (shortest round-trip) decimal rendering of the number, ignoring
trailing zeros.  A JS double is a dyadic rational; for a reduced fraction
whose denominator is `2^a * 5^b` the canonical rendering has exactly
`max a b` fractional digits, which is what the string-based source computes
(integers, including the `1e21`-style exponent cases, yield `0`). -/
def decimalPlaces (x : ℚ) : ℕ := max (countFactor 2 x.den) (countFactor 5 x.den)

/-- `roundToDecimalPlaces(x, n)`: `Math.round(x * 10^n) / 10^n`. -/
def roundToDecimalPlaces (x : ℚ) (n : ℕ) : ℚ := (jsRound (x * 10 ^ n) : ℚ) / 10 ^ n

/-- `numbers.isEquivalent(actual, expected)`: integers compare exactly;
otherwise both are rounded to the smaller of their visible decimal-place
counts before comparing (`prec = 0` falls back to `Math.round`). -/
def isEquivalent (actual expected : ℚ) : Bool :=
  if actual.den = 1 ∧ expected.den = 1 then
    actual == expected
  else
    let prec := min (decimalPlaces actual) (decimalPlaces expected)
    if prec = 0 then
      jsRound actual == jsRound expected
    else
      roundToDecimalPlaces actual prec == roundToDecimalPlaces expected prec

/-- `numbers.isEqual(actual, expected)`:
`roundToMaxPrecision(actual) === roundToMaxPrecision(expected)`. -/
def isEqual (actual expected : ℚ) : Bool :=
  roundToMaxPrecision actual == roundToMaxPrecision expected

/-! ### String model (`normalizeStr` of `src/deep-equal.ts`) -/

/-- The character class of the JS regular-expression `\s`
(whitespace, including the Unicode space separators). -/
def jsIsSpaceChar (c : Char) : Bool :=
  c.val == 32 || c.val == 9 || (10 ≤ c.val && c.val ≤ 13) || c.val == 160 ||
  c.val == 0x1680 || (0x2000 ≤ c.val && c.val ≤ 0x200a) || c.val == 0x2028 ||
  c.val == 0x2029 || c.val == 0x202f || c.val == 0x205f || c.val == 0x3000 ||
  c.val == 0xfeff

/-- JS `String.prototype.toUpperCase` restricted to the ASCII mapping. -/
def toUpperCase (s : List Char) : List Char := s.map Char.toUpper

/-- JS `String.prototype.toLowerCase` restricted to the ASCII mapping. -/
def toLowerCase (s : List Char) : List Char := s.map Char.toLower

/-- JS `x.replace(/\s+/, ' ')`: the regex has no `g` flag, so only the first
maximal run of whitespace is replaced by a single space. -/
def replaceFirstWsRun : List Char → List Char
  | [] => []
  | c :: rest =>
    if jsIsSpaceChar c then ' ' :: rest.dropWhile jsIsSpaceChar
    else c :: replaceFirstWsRun rest

/-- `normalizeStr(x)`: `x.toUpperCase().replace(/\s+/, ' ')`. -/
def normalizeStr (x : List Char) : List Char := replaceFirstWsRun (toUpperCase x)

/-- Helper for the spec-side whitespace collapse: the flag records whether
the current position is inside a whitespace run whose single replacement
space has already been emitted. -/
def collapseAux : Bool → List Char → List Char
  | _, [] => []
  | inRun, c :: rest =>
    if jsIsSpaceChar c then
      if inRun then collapseAux true rest else ' ' :: collapseAux true rest
    else c :: collapseAux false rest

/-- Spec-side notion used by the claim about `~` on strings: collapse
*every* run of whitespace to a single space. -/
def collapseAllWsRuns (l : List Char) : List Char := collapseAux false l

/-- Spec-side string normalization for equivalence:
uppercase with every whitespace run collapsed. -/
def specNormalize (s : List Char) : List Char := collapseAllWsRuns (toUpperCase s)

/-! ### The value domain -/

/-- The JS value domain handled by the equality/conversion functions under
`src/`, restricted to the value kinds the claims are about: booleans,
numbers (`Decimal`), bigints (`Long`), strings, `null`, and plain JSON
objects (represented as association lists in insertion order; JS objects
cannot contain duplicate keys).  `ResourceNode` wrappers, `Date`s, arrays
nested inside objects, and `FP_Type` instances (whose class definitions live
in `types.ts`, outside `src/`) are not part of this domain. -/
inductive Val where
  | bool (b : Bool)
  | num (q : ℚ)
  | bigint (z : ℤ)
  | str (s : List Char)
  | null
  | obj (fields : List (String × Val))

mutual
/-- Structural (mathematical) equality test on `Val`; used to model equality
of hash strings (`JSON.stringify` is injective on canonicalized values). -/
def valBeq : Val → Val → Bool
  | .bool a, .bool b => a == b
  | .num a, .num b => a == b
  | .bigint a, .bigint b => a == b
  | .str a, .str b => a == b
  | .null, .null => true
  | .obj a, .obj b => fieldsBeq a b
  | _, _ => false

/-- Field-list companion of `valBeq`. -/
def fieldsBeq : List (String × Val) → List (String × Val) → Bool
  | [], [] => true
  | (k1, v1) :: r1, (k2, v2) :: r2 => k1 == k2 && valBeq v1 v2 && fieldsBeq r1 r2
  | _, _ => false
end

/-- JS `===` on the primitive part of the domain.  Two object *references*
are `===` only when identical; two separately constructed (structurally
equal) objects are not, so object pairs always fall through to `objEquiv`
in `deepEqual` (which yields the same verdict on this domain). -/
def jsStrictEqPrim : Val → Val → Bool
  | .bool a, .bool b => a == b
  | .num a, .num b => a == b
  | .bigint a, .bigint b => a == b
  | .str a, .str b => a == b
  | .null, .null => true
  | _, _ => false

/-- JS truthiness (`!x` is the negation of this). -/
def jsTruthy : Val → Bool
  | .null => false
  | .bool b => b
  | .num q => !(q == 0)
  | .bigint z => !(z == 0)
  | .str s => !s.isEmpty
  | .obj _ => true

/-- Whether `typeof x === 'object'` (true for `null` and objects). -/
def jsTypeofIsObject : Val → Bool
  | .null => true
  | .obj _ => true
  | _ => false

/-- The `typeof` string of a value. -/
def jsTypeof : Val → String
  | .bool _ => "boolean"
  | .num _ => "number"
  | .bigint _ => "bigint"
  | .str _ => "string"
  | .null => "object"
  | .obj _ => "object"

/-- `Object.keys` (own enumerable properties; a boxed primitive has none). -/
def jsKeysOf : Val → List String
  | .obj f => f.map Prod.fst
  | _ => []

/-- JS property read `f[k]` on an object represented as an association list.
For the keys produced by `Object.keys` the property is always present;
the `.null` default models `undefined` and is unreachable there. -/
def jsGetD (f : List (String × Val)) (k : String) : Val :=
  ((f.find? (fun p => p.1 == k)).map Prod.snd).getD .null

/-- JS property read `v[k]`. -/
def jsGetProp (v : Val) (k : String) : Val :=
  match v with
  | .obj f => jsGetD f k
  | _ => .null

/-- Insertion step of the sort used for `Object.keys(..).sort()`
(JS default sort: lexicographic string comparison). -/
def insertStr (s : String) : List String → List String
  | [] => [s]
  | t :: rest => if s ≤ t then s :: t :: rest else t :: insertStr s rest

/-- `Array.prototype.sort()` on an array of strings. -/
def sortStrs : List String → List String
  | [] => []
  | s :: rest => insertStr s (sortStrs rest)

/-- Truthiness of a `boolean | undefined` JS value
(`undefined` and `false` are both falsy). -/
def jsTruthyOpt (r : Option Bool) : Bool := r == some true

theorem sizeOf_jsGetD_lt (f : List (String × Val)) (k : String) :
    sizeOf (jsGetD f k) < sizeOf (Val.obj f) := by
  simp only [jsGetD, Val.obj.sizeOf_spec]
  cases hf : f.find? (fun p => p.1 == k) with
  | none =>
    have h0 : 1 ≤ sizeOf f := by cases f <;> simp_arith
    simp
    omega
  | some p =>
    have hp : p ∈ f := List.mem_of_find?_eq_some hf
    have h1 := List.sizeOf_lt_of_mem hp
    have h2 : sizeOf p.2 < sizeOf p := by
      cases p with
      | mk a b => simp only [Prod.mk.sizeOf_spec]; omega
    simp
    omega

theorem sizeOf_jsGetProp_lt {v1 : Val} (k : String)
    (hmem : k ∈ sortStrs (jsKeysOf v1)) : sizeOf (jsGetProp v1 k) < sizeOf v1 := by
  cases v1 with
  | obj f => exact sizeOf_jsGetD_lt f k
  | bool b => simp [jsKeysOf, sortStrs] at hmem
  | num q => simp [jsKeysOf, sortStrs] at hmem
  | bigint z => simp [jsKeysOf, sortStrs] at hmem
  | str s => simp [jsKeysOf, sortStrs] at hmem
  | null => simp [jsKeysOf, sortStrs] at hmem

/-! ### `deepEqual` (`src/deep-equal.ts`)

`deepEqual` is split into three mutually recursive functions that follow the
source layout: `deepEqualV` covers the `===` fast path and the fuzzy /
numeric type-directed sections, `deepEqualTail` the falsy-or-both-primitive
test, and `objEquivV` the `objEquiv` helper.  `some b` models a boolean
return, `none` models `undefined` (which `objEquiv`'s single-key case can
propagate). -/

mutual
/-- `deepEqual(v1, v2, opts)` on the embedded domain.  The `ResourceNode`
conversions are identities here, the second conjunct of the `===` fast path
is `true` for non-`ResourceNode` inputs, and the `Date` / `FP_Type` branches
are outside the domain.  Under the fuzzy option the source's `isNumber`
also accepts numeric strings and throws a `TypeError` on bigints (it applies
`isFinite` to them); those paths are outside every claim (the fuzzy option
is only exercised on string pairs) and fall through to the tail here. -/
def deepEqualV (fuzzy : Bool) (v1 v2 : Val) : Option Bool :=
  if jsStrictEqPrim v1 v2 then some true
  else
    match v1, v2 with
    | .str a, .str b =>
      if fuzzy then some (normalizeStr a == normalizeStr b)
      else deepEqualTail fuzzy (.str a) (.str b)
    | .num a, .num b =>
      some (if fuzzy then isEquivalent a b else isEqual a b)
    | .num a, .bigint b =>
      if fuzzy then deepEqualTail fuzzy (.num a) (.bigint b)
      else some (decide (a = (b : ℚ)))
    | .bigint a, .num b =>
      if fuzzy then deepEqualTail fuzzy (.bigint a) (.num b)
      else some (decide ((a : ℚ) = b))
    | w1, w2 => deepEqualTail fuzzy w1 w2
termination_by (sizeOf v1, 2)
decreasing_by all_goals exact Prod.Lex.right _ (by omega)

/-- The remainder of `deepEqual`: `Date`s are outside the domain; then
`!actual || !expected || typeof actual != 'object' && typeof expected !=
'object'` returns the `===` verdict, and everything else goes to
`objEquiv` (the `FP_Type` branches are outside the domain). -/
def deepEqualTail (fuzzy : Bool) (v1 v2 : Val) : Option Bool :=
  if !jsTruthy v1 || !jsTruthy v2 || (!jsTypeofIsObject v1 && !jsTypeofIsObject v2) then
    some (jsStrictEqPrim v1 v2)
  else
    objEquivV fuzzy v1 v2
termination_by (sizeOf v1, 1)
decreasing_by all_goals exact Prod.Lex.right _ (by omega)

/-- `objEquiv(a, b, opts)`.  Null operands are falsy and never reach it;
the `prototype` test never fires (instances carry no own `prototype`
property); `arguments` objects do not arise.  Keys are sorted and compared
(the cheap key test), then the values are compared per key — the
single-key case returns the inner result directly (possibly `undefined`),
the general loop demands every inner result truthy and finally compares
the `typeof` strings. -/
def objEquivV (fuzzy : Bool) (v1 v2 : Val) : Option Bool :=
  if (sortStrs (jsKeysOf v1)).length ≠ (sortStrs (jsKeysOf v2)).length then some false
  else if sortStrs (jsKeysOf v1) ≠ sortStrs (jsKeysOf v2) then some false
  else
    match hka : sortStrs (jsKeysOf v1) with
    | [k] => deepEqualV fuzzy (jsGetProp v1 k) (jsGetProp v2 k)
    | _ =>
      if (sortStrs (jsKeysOf v1)).attach.all (fun k =>
            jsTruthyOpt (deepEqualV fuzzy (jsGetProp v1 k.1) (jsGetProp v2 k.1))) then
        some (jsTypeof v1 == jsTypeof v2)
      else some false
termination_by (sizeOf v1, 0)
decreasing_by
  all_goals apply Prod.Lex.left
  all_goals first
    | exact sizeOf_jsGetProp_lt k (hka ▸ List.mem_singleton.mpr rfl)
    | exact sizeOf_jsGetProp_lt k.1 k.2
end

/-! ### `hashObject` (`src/types/core.ts`, hash-object part) -/

/-- `prepareObject(value)`: brings a value to the unified form serialized by
`hashObject`.  `null` stays `null`; a bigint becomes its decimal string; a
number is rounded to the maximum precision; an object is rebuilt with its
keys in sorted order and prepared values (`Date`, `FP_Quantity` and other
`FP_Type` values are outside this domain); strings and booleans pass
through. -/
def prepareObject : Val → Val
  | .null => .null
  | .bigint z => .str (toString z).data
  | .num q => .num (roundToMaxPrecision q)
  | .obj f => .obj ((sortStrs (f.map Prod.fst)).map fun k => (k, prepareObject (jsGetD f k)))
  | .bool b => .bool b
  | .str s => .str s
termination_by v => sizeOf v
decreasing_by exact sizeOf_jsGetD_lt f k

/-- `hashObject(obj) = JSON.stringify(prepareObject(obj))`.  `JSON.stringify`
is injective on prepared values (keys are in canonical sorted order and the
number rendering is canonical), so equality of the hash strings is modelled
as structural equality (`valBeq`) of the prepared values. -/
def hashObject (v : Val) : Val := prepareObject v

/-! ### `src/filtering.ts`: `distinct` and `repeat` -/

/-- Modelled from the spec: `TypeInfo.isPrimitiveValue` (defined in
`types.ts`, which is not under `src/`).  Per the data model (§3) the
primitive (System) value kinds are `Boolean`, `Integer`, `Long`, `Decimal`
and `String`; complex (object) values are not primitive (§4.4 speaks of
collections "containing no primitives" switching to the hash strategy). -/
def isPrimitiveValue : Val → Bool
  | .bool _ => true
  | .num _ => true
  | .bigint _ => true
  | .str _ => true
  | _ => false

/-- `maxCollSizeForDeepEqual` (`src/deep-equal.ts`): maximum collection
length for which `deepEqual` is used directly. -/
def maxCollSizeForDeepEqual : ℕ := 6

/-- The `do { … } while (xCopy.length)` loop of `distinctFn`'s deep-equal
branch: repeatedly take the front item (the source reverses the list and
pops from the back), append it to the accumulated unique list, and drop the
remaining items `deepEqual` to it. -/
def dedupDeepEqualLoop : List Val → List Val → List Val
  | unique, [] => unique
  | unique, xObj :: rest =>
    dedupDeepEqualLoop (unique ++ [xObj])
      (rest.filter fun o => !(jsTruthyOpt (deepEqualV false xObj o)))
termination_by _ rest => rest.length
decreasing_by
  exact Nat.lt_succ_of_le (List.length_filter_le _ _)

/-- The hash-table filter shared by `distinctFn`'s hash branch and
`getNewItems`'s hash branch: fold over the items, keeping an item (and
recording its hash) when its hash string is not yet in the table.  The
accumulator pairs the kept items with the hash table. -/
def hashFilterFold (items : List Val) (acc : List Val × List Val) : List Val × List Val :=
  items.foldl
    (fun (st : List Val × List Val) item =>
      let key := hashObject item
      if st.2.any (fun h => valBeq h key) then st
      else (st.1 ++ [item], st.2 ++ [key]))
    acc

/-- The `deepEqual` filter shared by `getNewItems`'s deep-equal branch: fold
over the items, keeping an item (and pushing it onto the result list) when
no element of the growing result list is `deepEqual` to it. -/
def deepEqualFilterFold (items : List Val) (acc : List Val × List Val) :
    List Val × List Val :=
  items.foldl
    (fun (st : List Val × List Val) item =>
      if st.2.any (fun i => jsTruthyOpt (deepEqualV false i item)) then st
      else (st.1 ++ [item], st.2 ++ [item]))
    acc

/-- `engine.distinctFn(x, hasPrimitive?)`: returns the unique items of `x`.
When the collection is longer than `maxCollSizeForDeepEqual` and contains no
primitive values, a hash table over `hashObject` strings is used; otherwise
pairwise `deepEqual` comparison. -/
def distinctFn (x : List Val) (hasPrimitive : Option Bool) : List Val :=
  if x.length > 0 then
    let hasPrim := hasPrimitive.getD (x.any isPrimitiveValue)
    if !hasPrim && x.length > maxCollSizeForDeepEqual then (hashFilterFold x ([], [])).1
    else dedupDeepEqualLoop [] x
  else []

/-- The mutable state threaded through `repeatMacro`: `res` is the running
result, `unique` the hash table of seen items (used only by the hash
branch), `hasPrimitive` the sticky primitive flag. -/
structure RepeatState where
  res : List Val
  unique : List Val
  hasPrimitive : Bool

/-- `getNewItems(items, state)`: updates the sticky `hasPrimitive` flag;
then, when no primitive has been seen and `items.length + res.length`
exceeds the threshold, filters `items` by hash freshness (recording the
hashes) and appends the kept items to `res` at the end; otherwise filters
`items` by `deepEqual` distinctness against the growing `res` (each kept
item is pushed to `res` immediately, so duplicates within `items` are
caught too).  Returns the kept (new) items and the updated state. -/
def getNewItems (items : List Val) (state : RepeatState) : List Val × RepeatState :=
  let hasPrimitive := state.hasPrimitive || items.any isPrimitiveValue
  if !hasPrimitive && items.length + state.res.length > maxCollSizeForDeepEqual then
    let acc := hashFilterFold items ([], state.unique)
    (acc.1, ⟨state.res ++ acc.1, acc.2, hasPrimitive⟩)
  else
    let acc := deepEqualFilterFold items ([], state.res)
    (acc.1, ⟨acc.2, state.unique, hasPrimitive⟩)

/-- `engine.repeatMacro(parentData, expr, state)` (synchronous path), with a
fuel parameter making the JS recursion a total function: `none` means the
fuel was exhausted before the recursion returned.  An array `parentData` is
always truthy, so the `!parentData` early return never fires here.  Each
round applies `expr` to every item, flattens, and when the flattened list is
non-empty recurses on the items `getNewItems` found new; otherwise it
returns the accumulated `state.res`. -/
def repeatMacroFuel (fuel : ℕ) (parentData : List Val) (expr : Val → List Val)
    (state : RepeatState) : Option (List Val) :=
  match fuel with
  | 0 => none
  | fuel + 1 =>
    let newItems := (parentData.map expr).flatten
    if newItems.length ≠ 0 then
      let r := getNewItems newItems state
      repeatMacroFuel fuel r.1 expr r.2
    else some state.res

/-- Invariant of the `repeat` state used in the termination proof: some
duplicate-free list `dL` of values from `S` inside `res` accounts, together
with the hash table, for the length of `res` (each deep-equal round grows
`dL`, each hash round grows `unique`, so `res` can never exceed
`dL.length + unique.length`). -/
def RepeatInv (S : List Val) (st : RepeatState) : Prop :=
  ∃ dL : List Val, dL.Nodup ∧ (∀ v ∈ dL, v ∈ S) ∧ (∀ v ∈ dL, v ∈ st.res) ∧
    st.unique.Nodup ∧ (∀ k ∈ st.unique, k ∈ S.map hashObject) ∧
    st.res.length ≤ dL.length + st.unique.length

/-! ### `src/logic.ts` -/

/-- An operand of the boolean operators after singleton evaluation: a
singleton boolean collection becomes a plain boolean and the empty
collection stays an (empty) array. -/
inductive LogicVal where
  | boolv (b : Bool)
  | empty

/-- `engine.orOp(a, b)`. -/
def orOp : LogicVal → LogicVal → LogicVal
  | a, .empty =>
    match a with
    | .boolv true => .boolv true
    | .boolv false => .empty
    | .empty => .empty
  | .empty, .boolv b => if b then .boolv true else .empty
  | .boolv a, .boolv b => .boolv (a || b)

/-- `engine.andOp(a, b)`. -/
def andOp : LogicVal → LogicVal → LogicVal
  | a, .empty =>
    match a with
    | .boolv true => .empty
    | .boolv false => .boolv false
    | .empty => .empty
  | .empty, .boolv b => if b then .empty else .boolv false
  | .boolv a, .boolv b => .boolv (a && b)

/-- `engine.xorOp(a, b)`: if either operand is an array (the empty set), the
result is the empty set. -/
def xorOp : LogicVal → LogicVal → LogicVal
  | .empty, _ => .empty
  | _, .empty => .empty
  | .boolv a, .boolv b => .boolv ((a && !b) || (!a && b))

/-- `engine.impliesOp(a, b)`. -/
def impliesOp : LogicVal → LogicVal → LogicVal
  | a, .empty =>
    match a with
    | .boolv true => .empty
    | .boolv false => .boolv true
    | .empty => .empty
  | .empty, .boolv b => if b then .boolv true else .empty
  | .boolv a, .boolv b => .boolv (if a = false then true else a && b)

/-! ### `src/equality.ts` -/

/-- Result of the equality operators: a collection (only the empty one
arises), a boolean, or JS `undefined`. -/
inductive EqResult where
  | coll (l : List Val)
  | res (b : Bool)
  | undefined

/-- `deepEqual` applied to the two operand *arrays* (via `objEquiv`:
`Object.keys` of an array is its list of index strings, which sort
identically on both sides, so arrays of equal length are compared
positionally; the single-element case returns the inner comparison directly
— possibly `undefined` — and the general loop demands every position
truthy). -/
def deepEqualColl (x y : List Val) : Option Bool :=
  if x.length ≠ y.length then some false
  else
    match x, y with
    | [a], [b] => deepEqualV false a b
    | _, _ =>
      if (x.zip y).all (fun p => jsTruthyOpt (deepEqualV false p.1 p.2)) then some true
      else some false

/-- `equality(x, y)` — returns `[]` when either operand collection is empty,
otherwise `deepEqual(x, y)`. -/
def equality (x y : List Val) : EqResult :=
  if x.isEmpty || y.isEmpty then .coll []
  else
    match deepEqualColl x y with
    | some b => .res b
    | none => .undefined

/-- `engine.equal(a, b)`. -/
def equal (a b : List Val) : EqResult := equality a b

/-- `engine.unequal(a, b)`: `eq === undefined ? undefined : !eq`.  When
`equality` returns the empty array, `!eq` negates a truthy value (`![]` is
`false` in JS), so the result is the boolean `false`, not a collection. -/
def unequal (a b : List Val) : EqResult :=
  match equality a b with
  | .undefined => .undefined
  | .res b => .res (!b)
  | .coll _ => .res false

/-! ### `src/misc.ts`: `iif`, `toBoolean`, `toQuantity` -/

/-- `util.isTrue(x)` on a collection operand: true exactly for a singleton
collection whose value is `true` (`valData` is the identity on plain
values). -/
def isTrue (x : List Val) : Bool :=
  match x with
  | [v] => jsStrictEqPrim v (.bool true)
  | _ => false

/-- `iifMacroSync(data, condition, ok, fail)`: applies the `ok` closure when
the condition is singleton `true`, otherwise the `fail` closure when
present, otherwise returns the empty collection. -/
def iifMacroSync {α : Type} (data : α) (condition : List Val)
    (ok : α → List Val) (fail : Option (α → List Val)) : List Val :=
  if isTrue condition then ok data
  else
    match fail with
    | some f => f data
    | none => []

/-- The string table of values convertible to `true` (`trueStrings`). -/
def trueStrings : List (List Char) :=
  ["true".data, "t".data, "yes".data, "y".data, "1".data, "1.0".data]

/-- The string table of values convertible to `false` (`falseStrings`). -/
def falseStrings : List (List Char) :=
  ["false".data, "f".data, "no".data, "n".data, "0".data, "0.0".data]

/-- Truthiness of the JS record lookup `table[key]` on the `trueStrings` /
`falseStrings` tables.  The tables are built by `reduce` on a plain object
literal (`{}`), so the lookup also finds the properties inherited from
`Object.prototype`.  Property access is case-sensitive and `key` is always
lower-cased, so the only reachable inherited property names are
`constructor` (bound to the `Object` function) and `__proto__` (bound to
`Object.prototype`) — both truthy values. -/
def recordLookupTruthy (table : List (List Char)) (key : List Char) : Bool :=
  table.any (fun t => t == key) ||
  key == "constructor".data || key == "__proto__".data

/-- `engine.toBoolean(coll)`: raises an error for a collection of more than
one item (`checkSingleton`); returns `undefined` (→ empty) for an empty
collection; converts a singleton boolean, `0`/`1` number, `0n`/`1n` bigint
or looked-up (lower-cased) string; anything else is `undefined`.  The
string lookups go through the prototype-inheriting record lookup. -/
def toBoolean (coll : List Val) : Except String (Option Bool) :=
  if coll.length > 1 then
    .error "toBoolean: The input collection contains multiple items"
  else
    match coll with
    | [v] =>
      match v with
      | .bool b => .ok (some b)
      | .bigint z =>
        .ok (if z == 1 then some true else if z == 0 then some false else none)
      | .num q =>
        .ok (if q == 1 then some true else if q == 0 then some false else none)
      | .str s =>
        let lowerCaseValue := toLowerCase s
        .ok (if recordLookupTruthy trueStrings lowerCaseValue then some true
          else if recordLookupTruthy falseStrings lowerCaseValue then some false
          else none)
      | _ => .ok none
    | _ => .ok none

/-- `FP_Quantity`: a numeric value with a unit string (UCUM codes are kept
quoted, calendar words unquoted). -/
structure FP_Quantity where
  value : ℚ
  unit : String

/-- The input domain of `engine.toQuantity`: numbers, booleans and
`FP_Quantity` values.  (The string-parsing branch driven by
`quantityRegex` is not exercised by the claims and strings are left out of
this domain.) -/
inductive QVal where
  | num (q : ℚ)
  | boolv (b : Bool)
  | qty (q : FP_Quantity)

/-- Modelled from the spec: `FP_Quantity._calendarDuration2Seconds`
(defined in `types.ts`, which is not under `src/`) — the length in seconds
of each calendar-duration word (§3: `year`, `month`, `week`, `day`, `hour`,
`minute`, `second`, `millisecond`). -/
def calendarDuration2Seconds (u : String) : Option ℚ :=
  if u = "year" then some (31536000 : ℚ)
  else if u = "month" then some (2592000 : ℚ)
  else if u = "week" then some (604800 : ℚ)
  else if u = "day" then some (86400 : ℚ)
  else if u = "hour" then some (3600 : ℚ)
  else if u = "minute" then some (60 : ℚ)
  else if u = "second" then some (1 : ℚ)
  else if u = "millisecond" then some (1 / 1000 : ℚ)
  else none

/-- Modelled from the spec: `FP_Quantity.mapTimeUnitsToUCUMCode` (defined in
`types.ts`, which is not under `src/`) — maps calendar-duration words to
the corresponding UCUM time codes (§3, glossary). -/
def mapTimeUnitsToUCUMCode (u : String) : Option String :=
  if u = "year" then some "a"
  else if u = "month" then some "mo"
  else if u = "week" then some "wk"
  else if u = "day" then some "d"
  else if u = "hour" then some "h"
  else if u = "minute" then some "min"
  else if u = "second" then some "s"
  else if u = "millisecond" then some "ms"
  else none

/-- JS `!x` for a `number | undefinedined` value (`!undefined` is `true`,
`!0` is `true`, any other number is truthy). -/
def jsNotNumOpt : Option ℚ → Bool
  | none => true
  | some q => q == 0

/-- JS `x > 1` for a `number | undefinedined` value
(`undefined > 1` is `false` — a `NaN` comparison). -/
def jsGtOneNumOpt : Option ℚ → Bool
  | none => false
  | some q => decide (1 < q)

/-- Outcome of `engine.toQuantity` on a singleton: the literal `null`
return, a finished `FP_Quantity`, or a delegated call to
`FP_Quantity.convUnitTo` (defined in `types.ts`, not under `src/`, so the
conversion is kept symbolic). -/
inductive QtyOutcome where
  | nullValue
  | quantity (q : FP_Quantity)
  | convUnitTo (fromUnit : String) (value : ℚ) (toUnit : String)

/-- `engine.toQuantity(coll, toUnit?)`.  Throws for a collection of more
than one item; yields `undefined` (→ empty) for an empty collection.  With
a `toUnit`, the source first evaluates
`FP_Quantity._calendarDuration2Seconds[this.unit]` — but `this` is the
evaluation context (`FHIRPathContext`), which declares no `unit` property,
so `thisUnitInSeconds` is always `undefined` — and returns `null` when
`!thisUnitInSeconds !== !toUnitInSeconds && (thisUnitInSeconds > 1 ||
toUnitInSeconds > 1)`.  Otherwise an unquoted non-calendar `toUnit` is
wrapped in single quotes, the singleton is converted to an `FP_Quantity`,
and a unit mismatch is delegated to `FP_Quantity.convUnitTo`. -/
def toQuantity (coll : List QVal) (toUnit : Option String) :
    Except String (Option QtyOutcome) :=
  if coll.length > 1 then
    .error "toQuantity: The input collection contains multiple items"
  else
    match coll with
    | [v] =>
      let thisUnitInSeconds : Option ℚ := none
      let boundaryNull :=
        match toUnit with
        | some tu =>
          let toUnitInSeconds := calendarDuration2Seconds tu
          (jsNotNumOpt thisUnitInSeconds != jsNotNumOpt toUnitInSeconds) &&
            (jsGtOneNumOpt thisUnitInSeconds || jsGtOneNumOpt toUnitInSeconds)
        | none => false
      if boundaryNull then .ok (some .nullValue)
      else
        let toUnit2 : Option String :=
          match toUnit with
          | some tu =>
            if (mapTimeUnitsToUCUMCode tu).isSome then some tu
            else some ("\x27" ++ tu ++ "\x27")
          | none => none
        let result : FP_Quantity :=
          match v with
          | .num q => ⟨q, "\x271\x27"⟩
          | .qty q => q
          | .boolv b => ⟨if b then 1 else 0, "\x271\x27"⟩
        match toUnit2 with
        | some tu =>
          if result.unit ≠ tu then .ok (some (.convUnitTo result.unit result.value tu))
          else .ok (some (.quantity result))
        | none => .ok (some (.quantity result))
    | _ => .ok none

/-- Spec-side predicate: the conversion crosses between a calendar duration
greater than a second and a UCUM time-valued quantity greater than a
second (§3). -/
def crossesCalendarUcumBoundary (u1 u2 : String) : Bool :=
  let calGtSec := fun (u : String) =>
    u = "year" || u = "month" || u = "week" || u = "day" || u = "hour" || u = "minute"
  let ucumGtSec := fun (u : String) =>
    u = "a" || u = "mo" || u = "wk" || u = "d" || u = "h" || u = "min"
  (calGtSec u1 && ucumGtSec u2) || (ucumGtSec u1 && calGtSec u2)

/-! ### `src/math.ts`: `div`, `intdiv`, `mod` -/

/-- A numeric operand: a JS number or a bigint. -/
inductive NumV where
  | num (q : ℚ)
  | big (z : ℤ)

/-- A numeric result: a number, a bigint, the empty collection, the JS `NaN`
produced by `x % 0`, or the `RangeError` thrown by a bigint division by
zero. -/
inductive NumResult where
  | num (q : ℚ)
  | big (z : ℤ)
  | emptyColl
  | nan
  | rangeError

/-- JS `y === 0`: true exactly for the number zero (a bigint `0n` is not
strictly equal to the number `0`). -/
def jsStrictEqNumZero : NumV → Bool
  | .num q => q == 0
  | .big _ => false

/-- JS `y === 0n`: true exactly for the bigint zero. -/
def jsStrictEqBigZero : NumV → Bool
  | .big z => z == 0
  | .num _ => false

/-- Truncation toward zero (JS number `%` uses the truncated quotient;
bigint `/` and `%` also truncate). -/
def truncQ (q : ℚ) : ℤ := q.num.tdiv q.den

/-- JS `a % b` on (finite) numbers: `NaN` when the divisor is zero,
otherwise the remainder with the dividend's sign. -/
def jsRemainder (a b : ℚ) : NumResult :=
  if b = 0 then .nan else .num (a - b * (truncQ (a / b) : ℚ))

/-- `engine.div(xs, ys)`: on singleton numeric operands, division returning
`[]` for every zero divisor (both `0` and `0n` are checked in each branch);
bigints are converted with `Number(..)`.  Non-singleton operands throw.
(The quantity branches are outside this domain.) -/
def div (xs ys : List NumV) : Except String NumResult :=
  match xs, ys with
  | [x], [y] =>
    match x, y with
    | .big a, .big b => .ok (if b = 0 then .emptyColl else .num ((a : ℚ) / (b : ℚ)))
    | .big a, .num b => .ok (if b = 0 then .emptyColl else .num ((a : ℚ) / b))
    | .num a, .num b => .ok (if b = 0 then .emptyColl else .num (a / b))
    | .num a, .big b => .ok (if b = 0 then .emptyColl else .num (a / (b : ℚ)))
  | _, _ => .error "Cannot divide the given collections"

/-- `engine.intdiv(x, y)`: `y === 0 || y === 0n` yields `[]`; bigint pairs
use bigint division (truncating); mixed pairs go through `Math.floor` of a
number division. -/
def intdiv (x y : NumV) : NumResult :=
  if jsStrictEqNumZero y || jsStrictEqBigZero y then .emptyColl
  else
    match x, y with
    | .big a, .big b => .big (a.tdiv b)
    | .big a, .num b => .num ((⌊(a : ℚ) / b⌋ : ℤ) : ℚ)
    | .num a, .num b => .num ((⌊a / b⌋ : ℤ) : ℚ)
    | .num a, .big b => .num ((⌊a / (b : ℚ)⌋ : ℤ) : ℚ)

/-- `engine.mod(x, y)`: the guard is `y === 0` only — a strict comparison
that does **not** match the bigint `0n`.  A bigint divisor of `0n` therefore
reaches the arithmetic: `x % 0n` on a bigint dividend throws a JS
`RangeError`, and `x % Number(0n)` on a number dividend produces `NaN`. -/
def mod (x y : NumV) : NumResult :=
  if jsStrictEqNumZero y then .emptyColl
  else
    match x, y with
    | .big a, .big b => if b = 0 then .rangeError else .big (a.tmod b)
    | .big a, .num b => jsRemainder (a : ℚ) b
    | .num a, .num b => jsRemainder a b
    | .num a, .big b => jsRemainder a (b : ℚ)

/-! ### Spec-side characterizations used by the claims -/

/-- Spec-side (claim) characterization for numeric equality: `r` is a
multiple of the precision step that is nearest to `x` (JS `Math.round`
resolves ties upward, so the upper multiple is also admitted as "nearest"
only when it is at least as close). -/
def isNearestMultipleOfStep (x r : ℚ) : Prop :=
  (∃ k : ℤ, r = (k : ℚ) * PRECISION_STEP) ∧
    ∀ m : ℤ, |x - r| ≤ |x - (m : ℚ) * PRECISION_STEP|

/-- Spec-side description of `toBoolean` taken from the claim's wording:
`none` stands for the raised error on a collection of more than one item;
`some none` is the empty result; otherwise the value converts as the claim
enumerates (case-insensitive string matching). -/
def specToBoolean (coll : List Val) : Option (Option Bool) :=
  match coll with
  | [] => some none
  | [v] =>
    some (match v with
      | .bool b => some b
      | .num q => if q = 1 then some true else if q = 0 then some false else none
      | .bigint z => if z = 1 then some true else if z = 0 then some false else none
      | .str s =>
        if trueStrings.any (fun t => toLowerCase t = toLowerCase s) then some true
        else if falseStrings.any (fun t => toLowerCase t = toLowerCase s) then some false
        else none
      | _ => none)
  | _ => none

/-- Amended spec-side description of `toBoolean`: as `specToBoolean`, except
that a string whose lower-cased form is `constructor` or `__proto__` also
converts to `true`, because the string tables are plain objects and the
lookup finds those two inherited (truthy) `Object.prototype` properties. -/
def specToBooleanAmended (coll : List Val) : Option (Option Bool) :=
  match coll with
  | [] => some none
  | [v] =>
    some (match v with
      | .bool b => some b
      | .num q => if q = 1 then some true else if q = 0 then some false else none
      | .bigint z => if z = 1 then some true else if z = 0 then some false else none
      | .str s =>
        if trueStrings.any (fun t => toLowerCase t = toLowerCase s) ∨
            toLowerCase s = "constructor".data ∨ toLowerCase s = "__proto__".data then
          some true
        else if falseStrings.any (fun t => toLowerCase t = toLowerCase s) then some false
        else none
      | _ => none)
  | _ => none

/-! ## Theorems -/

/-- Claim C2: the boolean operators obey the three-valued truth tables on
singleton-boolean-or-empty operands: `orOp({}, true) = true`,
`orOp({}, false) = {}`, `andOp({}, false) = false`, `andOp({}, true) = {}`,
`xorOp` of any operand pair with at least one empty operand is `{}`, and
`impliesOp({}, true) = true`. -/
theorem logic_three_valued_truth_tables :
    orOp .empty (.boolv true) = .boolv true ∧
    orOp .empty (.boolv false) = .empty ∧
    andOp .empty (.boolv false) = .boolv false ∧
    andOp .empty (.boolv true) = .empty ∧
    (∀ x : LogicVal, xorOp .empty x = .empty ∧ xorOp x .empty = .empty) ∧
    impliesOp .empty (.boolv true) = .boolv true := by
  refine ⟨rfl, rfl, rfl, rfl, ?_, rfl⟩
  intro x
  cases x <;> exact ⟨rfl, rfl⟩

/-- Claim C1 (counterexample): with an empty left operand and `[true]` on
the right, `engine.unequal` returns the boolean `false` (the JS negation of
the truthy empty array), not the empty collection the claim requires. -/
theorem unequal_empty_operand_counterexample :
    unequal [] [Val.bool true] = .res false ∧
    EqResult.res false ≠ .coll [] :=
  ⟨rfl, fun h => nomatch h⟩

/-- Claim C1 (amended): for every pair of collections with an empty side,
`engine.equal` returns the empty collection, but `engine.unequal` returns
the boolean `false` (it negates the truthy empty array produced by
`equality`). -/
theorem equal_empty_operand_unequal_false (b : List Val) :
    equal [] b = .coll [] ∧ equal b [] = .coll [] ∧
    unequal [] b = .res false ∧ unequal b [] = .res false := by
  refine ⟨rfl, ?_, rfl, ?_⟩ <;>
    simp [equal, unequal, equality]

/-- Claim C9: `iifMacro` is lazy.  When the condition is singleton `true`
the result is exactly the `ok` closure's value (independently of any `fail`
closure, which is therefore never applied); otherwise it is exactly the
`fail` closure's value when one is present (so `ok` is never applied), and
the empty collection when none is. -/
theorem iifMacroSync_lazy {α : Type} (data : α) (condition : List Val)
    (ok fail : α → List Val) :
    (isTrue condition = true →
      iifMacroSync data condition ok (some fail) = ok data ∧
      iifMacroSync data condition ok none = ok data) ∧
    (isTrue condition = false →
      iifMacroSync data condition ok (some fail) = fail data ∧
      iifMacroSync data condition ok none = []) := by
  constructor
  · intro h
    constructor <;> simp [iifMacroSync, h]
  · intro h
    constructor <;> simp [iifMacroSync, h]

/-- Witness for C9 at a concrete input: the condition `[true]` selects the
`ok` branch. -/
theorem iifMacroSync_lazy_witness :
    iifMacroSync 0 [Val.bool true] (fun _ => [Val.num 1])
      (some fun _ => [Val.num 2]) = [Val.num 1] :=
  ((iifMacroSync_lazy 0 [Val.bool true] (fun _ => [Val.num 1])
    (fun _ => [Val.num 2])).1 (by decide)).1

/-- Claim C10: the zero-divisor behavior of the division family.  `div`
returns the empty collection for a zero divisor of either numeric kind, and
so does `intdiv`; but `mod`'s guard is `y === 0` only, so a bigint divisor
`0n` reaches the arithmetic — `5 % Number(0n)` evaluates to `NaN` (which is
returned) and `5n % 0n` throws a `RangeError` — contradicting the claim
that `mod` returns the empty collection for a zero divisor of either
numeric kind. -/
theorem division_family_zero_divisor :
    div [.num 5] [.num 0] = .ok .emptyColl ∧
    div [.num 5] [.big 0] = .ok .emptyColl ∧
    div [.big 5] [.big 0] = .ok .emptyColl ∧
    div [.big 5] [.num 0] = .ok .emptyColl ∧
    intdiv (.num 5) (.num 0) = .emptyColl ∧
    intdiv (.num 5) (.big 0) = .emptyColl ∧
    intdiv (.big 5) (.big 0) = .emptyColl ∧
    intdiv (.big 5) (.num 0) = .emptyColl ∧
    mod (.num 5) (.num 0) = .emptyColl ∧
    mod (.num 5) (.big 0) = .nan ∧
    mod (.big 5) (.big 0) = .rangeError ∧
    NumResult.nan ≠ .emptyColl ∧
    NumResult.rangeError ≠ .emptyColl := by
  refine ⟨?_, ?_, ?_, ?_, ?_, ?_, ?_, ?_, ?_, ?_, ?_, ?_, ?_⟩
  all_goals first
    | exact fun h => NumResult.noConfusion h
    | norm_num [div, intdiv, mod, jsRemainder, jsStrictEqNumZero, jsStrictEqBigZero]

/-- Claim C4: `toQuantity` is claimed to return `null` exactly when the
conversion crosses the calendar/UCUM boundary above one second.  In the
source, the boundary check reads `this.unit`, but `this` is the evaluation
context (which has no `unit` property), so the check degenerates: any
calendar-duration `toUnit` longer than a second yields `null`, even for
the boundary-free conversion of `12 'month'` to `'year'` (which the inline
comment says should be allowed and converted). -/
theorem toQuantity_boundary_check_broken :
    toQuantity [.qty ⟨12, "month"⟩] (some "year") = .ok (some .nullValue) ∧
    crossesCalendarUcumBoundary "month" "year" = false := by
  constructor
  · norm_num [toQuantity, calendarDuration2Seconds, jsNotNumOpt, jsGtOneNumOpt]
  · rfl

/-- Claim C8 (counterexample): the claim says every string other than the
twelve listed ones yields empty, but the program converts `"constructor"`
to `true`: the lookup `trueStrings[lowerCaseValue]` on a plain-object table
finds the inherited `Object.prototype.constructor`, which is truthy. -/
theorem toBoolean_prototype_lookup_counterexample :
    toBoolean [Val.str "constructor".data] = .ok (some true) ∧
    specToBoolean [Val.str "constructor".data] = some none ∧
    (Except.ok (some true) : Except String (Option Bool)) ≠ .ok none := by
  refine ⟨?_, by decide, ?_⟩
  · simp +decide [toBoolean, recordLookupTruthy, trueStrings, falseStrings]
  · intro h
    simp at h

/-- Claim C8 (amended): `toBoolean` raises an error for a collection of
more than one item; returns empty for an empty collection; and converts a
singleton exactly as the claim enumerates (booleans pass through; numbers
and bigints convert only from `1`/`0`; strings match the case-insensitive
tables) — except that a string whose lower-cased form is `constructor` or
`__proto__` also converts to `true`, because the string tables are plain
objects whose lookup finds those two inherited truthy `Object.prototype`
properties.  `specToBooleanAmended` is the amended claim-side description —
`none` standing for the raised error — and agrees with the source on every
input. -/
theorem toBoolean_matches_amended_spec (coll : List Val) :
    ((∃ e, toBoolean coll = .error e) ↔ specToBooleanAmended coll = none) ∧
    (∀ r, toBoolean coll = .ok r ↔ specToBooleanAmended coll = some r) := by
  match coll with
  | [] => simp [toBoolean, specToBooleanAmended]
  | v :: w :: rest =>
    constructor
    · simp [toBoolean, specToBooleanAmended]
    · intro r
      simp [toBoolean, specToBooleanAmended]
  | [v] =>
    cases v with
    | bool b => simp [toBoolean, specToBooleanAmended]
    | num q =>
      constructor
      · simp [toBoolean, specToBooleanAmended]
      · intro r
        simp [toBoolean, specToBooleanAmended]
    | bigint z =>
      constructor
      · simp [toBoolean, specToBooleanAmended]
      · intro r
        simp [toBoolean, specToBooleanAmended]
    | null => simp [toBoolean, specToBooleanAmended]
    | obj f => simp [toBoolean, specToBooleanAmended]
    | str s =>
      constructor
      · simp [toBoolean, specToBooleanAmended]
      · intro r
        have c1 : toLowerCase "true".data = "true".data := by decide
        have c2 : toLowerCase "t".data = "t".data := by decide
        have c3 : toLowerCase "yes".data = "yes".data := by decide
        have c4 : toLowerCase "y".data = "y".data := by decide
        have c5 : toLowerCase "1".data = "1".data := by decide
        have c6 : toLowerCase "1.0".data = "1.0".data := by decide
        have d1 : toLowerCase "false".data = "false".data := by decide
        have d2 : toLowerCase "f".data = "f".data := by decide
        have d3 : toLowerCase "no".data = "no".data := by decide
        have d4 : toLowerCase "n".data = "n".data := by decide
        have d5 : toLowerCase "0".data = "0".data := by decide
        have d6 : toLowerCase "0.0".data = "0.0".data := by decide
        by_cases hctor : toLowerCase s = "constructor".data
        · simp +decide [toBoolean, specToBooleanAmended, recordLookupTruthy,
            trueStrings, falseStrings, hctor]
        · by_cases hproto : toLowerCase s = "__proto__".data
          · simp +decide [toBoolean, specToBooleanAmended, recordLookupTruthy,
              trueStrings, falseStrings, hproto]
          · simp only [toBoolean, specToBooleanAmended, recordLookupTruthy,
              trueStrings, falseStrings, List.any_cons, List.any_nil,
              c1, c2, c3, c4, c5, c6, d1, d2, d3, d4, d5, d6, beq_iff_eq,
              Bool.or_false, decide_eq_true_eq, hctor, hproto, or_false,
              Bool.or_eq_true]
            norm_num [hctor, hproto]

/-- Claim C3 (counterexample): the claim predicts that two strings are
equivalent whenever they agree after uppercasing and collapsing *every*
whitespace run; `"a b  c"` and `"a b c"` do agree under that normalization,
yet the fuzzy `deepEqual` returns `false`, because `normalizeStr`'s regex
(no `g` flag) collapses only the *first* whitespace run. -/
theorem equivalence_strings_counterexample :
    specNormalize "a b  c".data = specNormalize "a b c".data ∧
    deepEqualV true (.str "a b  c".data) (.str "a b c".data) = some false := by
  constructor
  · decide
  · rw [deepEqualV]
    norm_num [jsStrictEqPrim]
    decide

/-- Claim C3 (amended): on every pair of strings, the fuzzy `deepEqual`
(equivalence) returns `true` exactly when the two strings agree after
uppercasing and replacing the *first* maximal whitespace run with a single
space (`normalizeStr`); every later whitespace run is compared verbatim. -/
theorem equivalence_strings_eq_normalizeStr (s1 s2 : List Char) :
    deepEqualV true (.str s1) (.str s2) = some (normalizeStr s1 == normalizeStr s2) := by
  rw [deepEqualV]
  by_cases h : jsStrictEqPrim (.str s1) (.str s2) = true
  · have hs : s1 = s2 := by simpa [jsStrictEqPrim] using h
    subst hs
    simp [h]
  · simp [h]

/-- Claim C7: strict equality `=` on two number (`Decimal`) singletons holds
exactly when the operands, each rounded to the nearest multiple of the
precision step `1e-8`, coincide: the operator computes
`roundToMaxPrecision` on both sides (`numbers.isEqual` via `deepEqual`),
and `roundToMaxPrecision x` *is* a nearest multiple of the step
(ties resolved upward by `Math.round`). -/
theorem numeric_equality_rounds_to_precision_step (a b : ℚ) :
    (equality [.num a] [.num b] = .res true ↔
      roundToMaxPrecision a = roundToMaxPrecision b) ∧
    isNearestMultipleOfStep a (roundToMaxPrecision a) := by
  constructor
  · have hde : deepEqualV false (.num a) (.num b) = some (isEqual a b) := by
      rw [deepEqualV]
      by_cases h : jsStrictEqPrim (.num a) (.num b) = true
      · have hab : a = b := by simpa [jsStrictEqPrim] using h
        subst hab
        simp [h, isEqual]
      · simp [h]
    simp only [equality, deepEqualColl, equal, List.isEmpty_cons, List.length_cons,
      List.length_nil, Bool.false_or, Bool.or_self, if_neg, hde]
    norm_num [isEqual]
  · constructor
    · exact ⟨jsRound (a / PRECISION_STEP), rfl⟩
    · intro m
      have hstep : (0:ℚ) < PRECISION_STEP := by norm_num [PRECISION_STEP]
      have ha : a = a / PRECISION_STEP * PRECISION_STEP := by
        field_simp
      set t := a / PRECISION_STEP with ht
      have h1 : ((jsRound t : ℤ) : ℚ) ≤ t + 1/2 := by
        simp only [jsRound]
        exact_mod_cast Int.floor_le (t + 1/2)
      have h2 : t + 1/2 < ((jsRound t : ℤ) : ℚ) + 1 := by
        simp only [jsRound]
        exact_mod_cast Int.lt_floor_add_one (t + 1/2)
      set k : ℤ := jsRound t with hk
      have habs : |t - (k : ℚ)| ≤ 1/2 := abs_le.mpr ⟨by linarith, by linarith⟩
      rcases eq_or_ne m k with rfl | hm
      · exact le_refl _
      · have hint : (1:ℚ) ≤ |(k:ℚ) - (m:ℚ)| := by
          have h3 : (1:ℤ) ≤ |k - m| := Int.one_le_abs (sub_ne_zero.mpr (Ne.symm hm))
          have h4 : ((|k - m| : ℤ) : ℚ) = |(k:ℚ) - (m:ℚ)| := by
            push_cast
            rfl
          calc (1:ℚ) ≤ ((|k - m| : ℤ) : ℚ) := by exact_mod_cast h3
            _ = |(k:ℚ) - (m:ℚ)| := h4
        have htm : 1/2 ≤ |t - (m:ℚ)| := by
          have tri := abs_sub_le ((k:ℚ)) t ((m:ℚ))
          have hcomm : |(k:ℚ) - t| = |t - (k:ℚ)| := abs_sub_comm _ _
          linarith
        have e1 : a - (k:ℚ) * PRECISION_STEP = (t - (k:ℚ)) * PRECISION_STEP := by
          rw [sub_mul, ← ha]
        have e2 : a - (m:ℚ) * PRECISION_STEP = (t - (m:ℚ)) * PRECISION_STEP := by
          rw [sub_mul, ← ha]
        show |a - (k:ℚ) * PRECISION_STEP| ≤ |a - (m:ℚ) * PRECISION_STEP|
        rw [e1, e2, abs_mul, abs_mul, abs_of_pos hstep]
        exact mul_le_mul_of_nonneg_right (le_trans habs htm) hstep.le

/-- Claim C5: `distinct` is claimed idempotent under both strategies, but it
is not.  On nine primitive-free items the first pass uses the hash strategy,
which distinguishes `{a: 1n}` from `{a: 1}` (the canonical hash renders a
bigint as the JSON *string* `"1"` and a number as the JSON *number* `1`),
while `deepEqual` treats `1n == 1` as equal.  The three survivors then fall
under the threshold, so the second pass uses the `deepEqual` strategy and
removes `{a: 1}`: `distinct(distinct(c))` has two items where `distinct(c)`
has three. -/
theorem distinct_not_idempotent_across_strategies :
    distinctFn [Val.obj [("a", .bigint 1)], Val.obj [("a", .num 1)],
      Val.obj [("b", .num 2)], Val.obj [("b", .num 2)], Val.obj [("b", .num 2)],
      Val.obj [("b", .num 2)], Val.obj [("b", .num 2)], Val.obj [("b", .num 2)],
      Val.obj [("b", .num 2)]] none =
      [Val.obj [("a", .bigint 1)], Val.obj [("a", .num 1)], Val.obj [("b", .num 2)]] ∧
    distinctFn [Val.obj [("a", .bigint 1)], Val.obj [("a", .num 1)],
      Val.obj [("b", .num 2)]] none =
      [Val.obj [("a", .bigint 1)], Val.obj [("b", .num 2)]] ∧
    [Val.obj [("a", .bigint 1)], Val.obj [("b", .num 2)]] ≠
      [Val.obj [("a", .bigint 1)], Val.obj [("a", .num 1)], Val.obj [("b", .num 2)]] := by
  refine ⟨?_, ?_, by simp⟩
  · simp +decide [distinctFn, hashFilterFold, hashObject, prepareObject, isPrimitiveValue,
      maxCollSizeForDeepEqual, jsGetD, sortStrs, insertStr, valBeq, fieldsBeq,
      roundToMaxPrecision]
  · simp +decide [distinctFn, dedupDeepEqualLoop, isPrimitiveValue,
      maxCollSizeForDeepEqual, deepEqualV, deepEqualTail, objEquivV, jsGetD, jsGetProp,
      jsKeysOf, sortStrs, insertStr, jsStrictEqPrim, jsTruthy, jsTruthyOpt,
      jsTypeofIsObject, jsTypeof]

theorem sizeOf_snd_lt_of_mem_fields {p : String × Val} {f : List (String × Val)}
    (h : p ∈ f) : sizeOf p.2 < sizeOf (Val.obj f) := by
  have h1 := List.sizeOf_lt_of_mem h
  have h2 : sizeOf p.2 < sizeOf p := by
    cases p with
    | mk a b => simp only [Prod.mk.sizeOf_spec]; omega
  simp only [Val.obj.sizeOf_spec]
  omega

theorem valBeq_refl (v : Val) : valBeq v v = true := by
  suffices H : ∀ (n : ℕ) (v : Val), sizeOf v ≤ n → valBeq v v = true from
    H (sizeOf v) v le_rfl
  intro n
  induction n with
  | zero =>
    intro v hv
    have : 0 < sizeOf v := by cases v <;> simp_arith
    omega
  | succ n ih =>
    intro v hv
    cases v with
    | bool b => simp [valBeq]
    | num q => simp [valBeq]
    | bigint z => simp [valBeq]
    | str s => simp [valBeq]
    | null => simp [valBeq]
    | obj f =>
      rw [valBeq]
      have hsz : sizeOf (Val.obj f) ≤ n + 1 := hv
      clear hv
      induction f with
      | nil => rw [fieldsBeq]
      | cons p rest ihf =>
        cases p with
        | mk k w =>
          rw [fieldsBeq]
          have hw : sizeOf w ≤ n := by
            have hlt : sizeOf w < sizeOf (Val.obj ((k, w) :: rest)) := by
              simpa using sizeOf_snd_lt_of_mem_fields
                (p := (k, w)) (f := (k, w) :: rest) (by simp)
            omega
          have hrest : sizeOf (Val.obj rest) ≤ n + 1 := by
            simp only [Val.obj.sizeOf_spec] at hsz ⊢
            simp only [List.cons.sizeOf_spec] at hsz
            omega
          simp [ih w hw, ihf hrest]

theorem deepEqual_refl (v : Val) : deepEqualV false v v = some true := by
  suffices H : ∀ (n : ℕ) (v : Val), sizeOf v ≤ n → deepEqualV false v v = some true from
    H (sizeOf v) v le_rfl
  intro n
  induction n with
  | zero =>
    intro v hv
    have : 0 < sizeOf v := by cases v <;> simp_arith
    omega
  | succ n ih =>
    intro v hv
    cases v with
    | bool b =>
      have h : jsStrictEqPrim (Val.bool b) (Val.bool b) = true := by simp [jsStrictEqPrim]
      rw [deepEqualV, h]
      simp
      all_goals intros
      all_goals simp_all
    | num q =>
      have h : jsStrictEqPrim (Val.num q) (Val.num q) = true := by simp [jsStrictEqPrim]
      rw [deepEqualV, h]
      simp
    | bigint z =>
      have h : jsStrictEqPrim (Val.bigint z) (Val.bigint z) = true := by simp [jsStrictEqPrim]
      rw [deepEqualV, h]
      simp
      all_goals intros
      all_goals simp_all
    | str s =>
      have h : jsStrictEqPrim (Val.str s) (Val.str s) = true := by simp [jsStrictEqPrim]
      rw [deepEqualV, h]
      simp
    | null =>
      have h : jsStrictEqPrim Val.null Val.null = true := by rfl
      rw [deepEqualV, h]
      simp
      all_goals intros
      all_goals simp_all
    | obj f =>
      rw [deepEqualV]
      have h1 : jsStrictEqPrim (.obj f) (.obj f) = false := by simp [jsStrictEqPrim]
      rw [h1]
      simp only [Bool.false_eq_true, if_false]
      have hget : ∀ k : String,
          deepEqualV false (jsGetProp (Val.obj f) k) (jsGetProp (Val.obj f) k) = some true := by
        intro k
        have hlt := sizeOf_jsGetD_lt f k
        exact ih _ (by simp only [jsGetProp]; omega)
      have htail : deepEqualTail false (Val.obj f) (Val.obj f) = some true := by
        rw [deepEqualTail]
        have h2 : jsTruthy (Val.obj f) = true := by simp [jsTruthy]
        have h3 : jsTypeofIsObject (Val.obj f) = true := by simp [jsTypeofIsObject]
        rw [h2, h3]
        simp only [Bool.not_true, Bool.false_or, Bool.and_self, Bool.false_and,
          Bool.or_self, Bool.false_eq_true, if_false]
        rw [objEquivV]
        split
        · simp_all
        · split
          · simp_all
          · split
            · exact hget _
            · rw [if_pos]
              · simp [jsTypeof]
              · simp only [List.all_eq_true, List.mem_attach, true_implies]
                intro x
                simp [hget x.1, jsTruthyOpt]
      exact htail
      all_goals intros
      all_goals simp_all
theorem hashFilterFold_spec (items : List Val) : ∀ (F U : List Val), U.Nodup →
    ∃ Δ : List Val, hashFilterFold items (F, U) = (F ++ Δ, U ++ Δ.map hashObject) ∧
      (∀ v ∈ Δ, v ∈ items) ∧ (U ++ Δ.map hashObject).Nodup := by
  induction items with
  | nil =>
    intro F U hU
    exact ⟨[], by simp [hashFilterFold], by simp, by simpa⟩
  | cons item rest ihr =>
    intro F U hU
    by_cases hmem : (U.any fun h => valBeq h (hashObject item)) = true
    · obtain ⟨Δ, h1, h2, h3⟩ := ihr F U hU
      refine ⟨Δ, ?_, fun v hv => List.mem_cons_of_mem _ (h2 v hv), h3⟩
      simp only [hashFilterFold, List.foldl_cons] at h1 ⊢
      rw [if_pos hmem]
      exact h1
    · have hkey : hashObject item ∉ U := by
        intro hk
        exact hmem (List.any_eq_true.mpr ⟨hashObject item, hk, valBeq_refl _⟩)
      have hU' : (U ++ [hashObject item]).Nodup := by
        simp [List.nodup_append, hU, hkey]
      obtain ⟨Δ, h1, h2, h3⟩ := ihr (F ++ [item]) (U ++ [hashObject item]) hU'
      refine ⟨item :: Δ, ?_, ?_, ?_⟩
      · simp only [hashFilterFold, List.foldl_cons] at h1 ⊢
        rw [if_neg hmem]
        rw [h1]
        simp
      · intro v hv
        rcases List.mem_cons.mp hv with rfl | hv2
        · exact List.mem_cons_self _ _
        · exact List.mem_cons_of_mem _ (h2 v hv2)
      · simpa using h3

theorem deepEqualFilterFold_spec (items : List Val) : ∀ (F R : List Val),
    ∃ Δ : List Val, deepEqualFilterFold items (F, R) = (F ++ Δ, R ++ Δ) ∧
      (∀ v ∈ Δ, v ∈ items) ∧ Δ.Nodup ∧ (∀ v ∈ Δ, v ∉ R) := by
  induction items with
  | nil =>
    intro F R
    exact ⟨[], by simp [deepEqualFilterFold], by simp, by simp, by simp⟩
  | cons item rest ihr =>
    intro F R
    by_cases hmem : (R.any fun i => jsTruthyOpt (deepEqualV false i item)) = true
    · obtain ⟨Δ, h1, h2, h3, h4⟩ := ihr F R
      refine ⟨Δ, ?_, fun v hv => List.mem_cons_of_mem _ (h2 v hv), h3, h4⟩
      simp only [deepEqualFilterFold, List.foldl_cons] at h1 ⊢
      rw [if_pos hmem]
      exact h1
    · have hnotR : item ∉ R := by
        intro hR
        refine hmem (List.any_eq_true.mpr ⟨item, hR, ?_⟩)
        simp [deepEqual_refl item, jsTruthyOpt]
      obtain ⟨Δ, h1, h2, h3, h4⟩ := ihr (F ++ [item]) (R ++ [item])
      refine ⟨item :: Δ, ?_, ?_, ?_, ?_⟩
      · simp only [deepEqualFilterFold, List.foldl_cons] at h1 ⊢
        rw [if_neg hmem]
        rw [h1]
        simp
      · intro v hv
        rcases List.mem_cons.mp hv with rfl | hv2
        · exact List.mem_cons_self _ _
        · exact List.mem_cons_of_mem _ (h2 v hv2)
      · refine List.nodup_cons.mpr ⟨?_, h3⟩
        intro hin
        exact (h4 item hin) (by simp)
      · intro v hv
        rcases List.mem_cons.mp hv with rfl | hv2
        · exact hnotR
        · intro hvR
          exact (h4 v hv2) (by simp [hvR])

theorem getNewItems_spec (S items : List Val) (st : RepeatState)
    (hitems : ∀ v ∈ items, v ∈ S) (hinv : RepeatInv S st) :
    RepeatInv S (getNewItems items st).2 ∧
    (getNewItems items st).2.res.length = st.res.length + (getNewItems items st).1.length := by
  obtain ⟨dL, hd1, hd2, hd3, hu1, hu2, hlen⟩ := hinv
  rw [getNewItems]
  split
  · -- hash branch
    obtain ⟨Δ, h1, h2, h3⟩ := hashFilterFold_spec items [] st.unique hu1
    simp only [List.nil_append] at h1
    rw [h1]
    constructor
    · refine ⟨dL, hd1, hd2, ?_, h3, ?_, ?_⟩
      · intro v hv
        simp only [List.mem_append]
        exact Or.inl (hd3 v hv)
      · intro k hk
        rcases List.mem_append.mp hk with hkU | hkΔ
        · exact hu2 k hkU
        · obtain ⟨v, hvΔ, rfl⟩ := List.mem_map.mp hkΔ
          exact List.mem_map_of_mem _ (hitems v (h2 v hvΔ))
      · simp only [List.length_append, List.length_map]
        omega
    · simp only [List.length_append]
  · -- deepEqual branch
    obtain ⟨Δ, h1, h2, h3, h4⟩ := deepEqualFilterFold_spec items [] st.res
    simp only [List.nil_append] at h1
    rw [h1]
    constructor
    · refine ⟨dL ++ Δ, ?_, ?_, ?_, hu1, hu2, ?_⟩
      · refine List.nodup_append.mpr ⟨hd1, h3, ?_⟩
        intro a haL
        intro haΔ
        exact (h4 a haΔ) (hd3 a haL)
      · intro v hv
        rcases List.mem_append.mp hv with hvL | hvΔ
        · exact hd2 v hvL
        · exact hitems v (h2 v hvΔ)
      · intro v hv
        simp only [List.mem_append]
        rcases List.mem_append.mp hv with hvL | hvΔ
        · exact Or.inl (hd3 v hvL)
        · exact Or.inr hvΔ
      · simp only [List.length_append]
        omega
    · simp only [List.length_append]

theorem repeatInv_res_le (S : List Val) (st : RepeatState) (h : RepeatInv S st) :
    st.res.length ≤ 2 * S.length := by
  obtain ⟨dL, hd1, hd2, _, hu1, hu2, hlen⟩ := h
  have h1 : dL.length ≤ S.length := (hd1.subperm fun _ hv => hd2 _ hv).length_le
  have h2 : st.unique.length ≤ S.length := by
    have := (hu1.subperm fun _ hk => hu2 _ hk).length_le
    simpa using this
  omega

theorem repeat_fuel_adequate (S : List Val) (expr : Val → List Val)
    (hS : ∀ x, ∀ v ∈ expr x, v ∈ S) :
    ∀ (fuel : ℕ) (pd : List Val) (st : RepeatState), RepeatInv S st →
      2 * S.length + 2 ≤ fuel + st.res.length →
      ∃ r, repeatMacroFuel fuel pd expr st = some r := by
  intro fuel
  induction fuel with
  | zero =>
    intro pd st hinv hfuel
    have := repeatInv_res_le S st hinv
    omega
  | succ fuel ih =>
    intro pd st hinv hfuel
    rw [repeatMacroFuel]
    by_cases hne : ((pd.map expr).flatten).length ≠ 0
    · rw [if_pos hne]
      have hni : ∀ v ∈ (pd.map expr).flatten, v ∈ S := by
        intro v hv
        obtain ⟨l, hl, hvl⟩ := List.mem_flatten.mp hv
        obtain ⟨x, _, rfl⟩ := List.mem_map.mp hl
        exact hS x v hvl
      obtain ⟨hinv2, hlen2⟩ := getNewItems_spec S _ st hni hinv
      by_cases hfresh : (getNewItems ((pd.map expr).flatten) st).1.length = 0
      · have hres2 := repeatInv_res_le S _ hinv2
        cases fuel with
        | zero =>
          exfalso
          omega
        | succ fuel2 =>
          rw [repeatMacroFuel]
          have hempty : (getNewItems ((pd.map expr).flatten) st).1 = [] :=
            List.length_eq_zero.mp hfresh
          rw [hempty]
          simp
      · exact ih _ _ hinv2 (by omega)
    · rw [if_neg hne]
      exact ⟨_, rfl⟩

/-- Claim C6: `repeatMacro` terminates on every finite input collection and
every projection whose outputs range over a finite set of values `S`:
because each round adds to the running result only items that the adaptive
deduplication has not seen, the result's length is bounded by `2·|S|`
(`RepeatInv`), so a fuel of `2·|S| + 2` always suffices for the recursion
to return its accumulated result. -/
theorem repeatMacro_terminates (parentData : List Val) (expr : Val → List Val)
    (S : List Val) (hS : ∀ x, ∀ v ∈ expr x, v ∈ S) :
    ∃ r, repeatMacroFuel (2 * S.length + 2) parentData expr ⟨[], [], false⟩ = some r := by
  apply repeat_fuel_adequate S expr hS (2 * S.length + 2) parentData ⟨[], [], false⟩
  · exact ⟨[], by simp, by simp, by simp, by simp, by simp, by simp⟩
  · simp

/-- Witness for C6 at a concrete projection whose outputs all lie in the
one-element set `[true]`. -/
theorem repeatMacro_terminates_witness :
    ∃ r, repeatMacroFuel (2 * [Val.bool true].length + 2) [Val.num 1]
      (fun _ => [Val.bool true]) ⟨[], [], false⟩ = some r :=
  repeatMacro_terminates [Val.num 1] (fun _ => [Val.bool true]) [Val.bool true]
    (by intro x v hv; simpa using hv)

end FPJS
